import Mathlib

/-!
Verification development for the chatette template engine
(files chatette/units/__init__.py and chatette/parsing/parser_utils.py).

The Python sources are shallowly embedded as executable Lean definitions:
generated texts are lists of characters, token streams are lists of
strings, stateful methods become state-passing functions, fallible code
returns Except, and randomness is threaded as an explicit list of natural
number draws.  Rule content nodes (subclasses of RuleContent, which live
outside the two embedded files) are abstracted by the data the embedded
methods consume: their exhaustive output list, their reported maximum
count, their casegen capability, and their randgen modifier data.
-/

/-! ### Special symbols (parser_utils constants), token level -/

def ALIAS_SYM : String := "~"

def SLOT_SYM : String := "@"

def INTENT_SYM : String := "%"

def UNIT_OPEN_SYM : String := "["

def UNIT_CLOSE_SYM : String := "]"

def ANNOTATION_OPEN_SYM : String := "("

def ANNOTATION_CLOSE_SYM : String := ")"

def VARIATION_SYM : String := "#"

def RAND_GEN_SYM : String := "?"

def PERCENT_GEN_SYM : String := "/"

def CASE_GEN_SYM : String := "&"

def ARG_SYM : String := "$"

def RESERVED_VARIATION_NAMES : List String :=
  [("all-variations-aggregation"), ("rules"), ("nb-gen-asked"), ("arg")]

/-! ### Special symbols, character level (for generated text processing) -/

def ESCAPE_CHAR : Char := '\\'

def ARG_CHAR : Char := '$'

/-- Errors the embedded Python code can raise: a SyntaxError carrying a
message, or an IndexError from an out-of-bounds sequence access. -/
inductive PyError where
  | syntaxError (msg : String)
  | indexError
  deriving Repr, DecidableEq

deriving instance DecidableEq for Except

/-- Embedding of parser_utils.is_special_sym: true when the string is one
single special character. -/
def is_special_sym (text : String) : Bool :=
  text.length == 1 &&
    (text == ALIAS_SYM || text == SLOT_SYM || text == INTENT_SYM ||
     text == UNIT_OPEN_SYM || text == UNIT_CLOSE_SYM ||
     text == VARIATION_SYM || text == RAND_GEN_SYM ||
     text == PERCENT_GEN_SYM || text == CASE_GEN_SYM ||
     text == ARG_SYM)

/-- First index of a token in a token list, length of the list when the
token is absent.  This is the value the Python while loops and list.index
compute at their use sites in parser_utils. -/
def firstIndexOf (tokens : List String) (sym : String) : Nat :=
  tokens.findIdx (fun t => t == sym)

/-! ### Bracket and span extraction (parser_utils) -/

/-- Scanning loop of get_declaration_interior and
get_annotation_interior: walk the remaining tokens with the current
index and the number of closing brackets still expected, stopping when
the count reaches zero or the tokens run out, and return the final
index, exactly as the Python while loop leaves end_index. -/
def spanEndAux (openSym closeSym : String) :
    List String → Nat → Nat → Nat
  | [], _, i => i
  | t :: rest, expected, i =>
      if expected == 0 then i
      else if t == openSym then spanEndAux openSym closeSym rest (expected + 1) (i + 1)
      else if t == closeSym then spanEndAux openSym closeSym rest (expected - 1) (i + 1)
      else spanEndAux openSym closeSym rest expected (i + 1)

/-- End index computed by the depth counting loop when it starts at
index i of the token list with one closing bracket expected. -/
def scanSpanEnd (tokens : List String) (openSym closeSym : String)
    (i : Nat) (expected : Nat) : Nat :=
  spanEndAux openSym closeSym (tokens.drop i) expected i

/-- Embedding of parser_utils.get_declaration_interior.  The Python
function finds the first opening square bracket, depth-counts to find the
end of the span, subtracts one from the end index, and only then compares
the end index with the length; the slice tokens[start:end] is returned. -/
def get_declaration_interior (tokens : List String) : Option (List String) :=
  let length := tokens.length
  let starting_index := firstIndexOf tokens UNIT_OPEN_SYM + 1
  if starting_index ≥ length then none
  else
    let end_index := scanSpanEnd tokens UNIT_OPEN_SYM UNIT_CLOSE_SYM starting_index 1 - 1
    if end_index ≥ length then none
    else some ((tokens.drop starting_index).take (end_index - starting_index))

/-- Embedding of parser_utils.get_annotation_interior.  Unlike the
declaration variant, the Python code does not subtract one from the end
index before the length comparison and the slice. -/
def get_annotation_interior (tokens : List String) : Option (List String) :=
  let length := tokens.length
  let starting_index := firstIndexOf tokens ANNOTATION_OPEN_SYM + 1
  if starting_index ≥ length then none
  else
    let end_index := scanSpanEnd tokens ANNOTATION_OPEN_SYM ANNOTATION_CLOSE_SYM starting_index 1
    if end_index ≥ length then none
    else some ((tokens.drop starting_index).take (end_index - starting_index))

/-! ### remove_escapement (parser_utils) -/

/-- Scanning loop of remove_escapement: the escaped flag records whether
the previous character was an unconsumed escape character. -/
def escLoop : Bool → List Char → List Char
  | true, c :: rest =>
      if c == ARG_CHAR then ESCAPE_CHAR :: ARG_CHAR :: escLoop false rest
      else c :: escLoop false rest
  | false, c :: rest =>
      if c == ESCAPE_CHAR then escLoop true rest
      else c :: escLoop false rest
  | _, [] => []

/-- Embedding of parser_utils.remove_escapement, including the early
return taken when the text contains no escape character. -/
def remove_escapement (text : List Char) : List Char :=
  if ESCAPE_CHAR ∈ text then escLoop false text else text

/-! ### Leading case helpers (chatette/units) -/

/-- Embedding of units.with_leading_upper: uppercase the first
non-whitespace character, leave everything else unchanged.  The per
character case mapping of Python str.upper is modelled by Char.toUpper. -/
def with_leading_upper : List Char → List Char
  | [] => []
  | c :: rest =>
      if c.isWhitespace then c :: with_leading_upper rest
      else c.toUpper :: rest

/-- Embedding of units.with_leading_lower. -/
def with_leading_lower : List Char → List Char
  | [] => []
  | c :: rest =>
      if c.isWhitespace then c :: with_leading_lower rest
      else c.toLower :: rest

/-- Embedding of units.randomly_change_case: the draw models
randint(0, 99), so the case is lowered when the draw is at least 50. -/
def randomly_change_case (draw : Nat) (text : List Char) : List Char :=
  if draw % 100 ≥ 50 then with_leading_lower text else with_leading_upper text

/-! ### Argument substitution (units.UnitDefinition, lines 188-194 and 237-242) -/

/-- Embedding of the compiled pattern (?<!\\)\$ident used by
UnitDefinition: replace every occurrence of the dollar sign followed by
the identifier that is not preceded by an escape character, scanning left
to right without rescanning the substituted value.  The prev argument
carries the character of the original text just before the current
position, which is what the negative lookbehind inspects. -/
def argSub (ident value : List Char) : Option Char → List Char → List Char
  | _, [] => []
  | prev, c :: rest =>
      if c == ARG_CHAR && !(prev == some ESCAPE_CHAR) && ident.isPrefixOf rest then
        value ++ argSub ident value (some (ident.getLastD ARG_CHAR)) (rest.drop ident.length)
      else c :: argSub ident value (some c) rest
termination_by _ l => l.length
decreasing_by
  all_goals simp_wf
  all_goals omega

/-- Embedding of text.replace of the two character sequence escape dollar
by a plain dollar, scanning left to right over non-overlapping matches. -/
def unescapeDollar : List Char → List Char
  | '\\' :: '$' :: rest => '$' :: unescapeDollar rest
  | c :: rest => c :: unescapeDollar rest
  | [] => []

/-- Argument replacement step shared verbatim by generate_random
(lines 190-192) and generate_all (lines 240-242): substitute the
unescaped occurrences of the argument pattern, then unescape every
deferred escaped dollar sign. -/
def applyArg (ident value text : List Char) : List Char :=
  unescapeDollar (argSub ident value none text)

/-! ### Examples and abstract rule content nodes -/

/-- Embedding of units.Example: a generated text with its entity list.
Entities are abstracted to natural number labels, since their record
shape belongs to collaborators outside the embedded files; the embedded
code only concatenates entity lists. -/
structure Example where
  text : List Char
  entities : List Nat
  deriving Repr, DecidableEq

/-- Abstraction of a RuleContent node as consumed by UnitDefinition.
The concrete subclasses are defined outside the two embedded source
files, so a node is characterised by the data the embedded methods use:
genAll is the list returned by its generate_all method, maxCount the
value returned by its get_max_nb_generated_examples method (none models
the Python None), canHaveCasegen the value of its can_have_casegen
method, randgen and percentgen its random generation modifier, and
genOut the example it contributes when it does generate in random mode. -/
structure RCNode where
  genAll : List Example
  maxCount : Option Nat
  canHaveCasegen : Bool
  randgen : Option (List Char)
  percentgen : Nat
  genOut : Example
  deriving Repr, DecidableEq

/-- A rule is an ordered list of content nodes, as in the source. -/
abbrev Rule := List RCNode

/-- The call-scoped randgen correlation map of generate_random,
modelling the Python dict generated_examples: an association list from
randgen name to the recorded boolean decision. -/
abbrev RMap := List (List Char × Bool)

/-- Lookup in the correlation map (dict membership and access). -/
def rmapLookup (m : RMap) (g : List Char) : Option Bool :=
  match m with
  | [] => none
  | (k, b) :: rest => if k == g then some b else rmapLookup rest g

/-- Modelled from the spec: the generate_random method of the RuleContent
subclasses, which are not part of the embedded source files.  Per the
spec (section 4.6) and the RuleContent.generate_random docstring, a node
bearing a randgen name first consults the correlation map and honours a
recorded decision; otherwise it rolls against its percentgen, records the
decision under its name, and acts on it.  The roll models the percentgen
chance by comparing a draw modulo 100 with the percentage.  The returned
boolean records whether the node generated, the node output itself being
abstracted by genOut. -/
def nodeGenRandom (n : RCNode) (m : RMap) (seed : List Nat) :
    Example × Bool × RMap × List Nat :=
  match n.randgen with
  | none => (n.genOut, true, m, seed)
  | some g =>
      match rmapLookup m g with
      | some b => (if b then n.genOut else ⟨[], []⟩, b, m, seed)
      | none =>
          let d : Bool := decide (seed.headD 0 % 100 < n.percentgen)
          (if d then n.genOut else ⟨[], []⟩, d, (g, d) :: m, seed.tail)

/-- The node loop of UnitDefinition.generate_random (lines 176-183):
each node of the chosen rule is generated in order, threading the single
correlation map created at the start of the call.  The per node examples
are returned together with the per node generation decisions. -/
def runRuleNodes : Rule → RMap → List Nat →
    List (Example × Bool) × RMap × List Nat
  | [], m, s => ([], m, s)
  | n :: ns, m, s =>
      let r := nodeGenRandom n m s
      let rest := runRuleNodes ns r.2.2.1 r.2.2.2
      ((r.1, r.2.1) :: rest.1, rest.2)

/-! ### UnitDefinition -/

/-- Embedding of units.UnitDefinition.  The variations dict is modelled
as an insertion ordered association list from variation name to its rule
list. -/
structure UnitDef where
  name : List Char
  rules : List Rule
  variations : List (List Char × List Rule)
  argIdent : Option (List Char)
  casegen : Bool
  deriving Repr, DecidableEq

/-- Lookup of a variation name in the variations mapping. -/
def varLookup (vs : List (List Char × List Rule)) (n : List Char) :
    Option (List Rule) :=
  match vs with
  | [] => none
  | (k, rs) :: rest => if k == n then some rs else varLookup rest n

/-- Update of the variations mapping by add_rule or add_rules: append
the new rules under an existing key, or append a new key. -/
def varRegister (vs : List (List Char × List Rule)) (n : List Char)
    (new : List Rule) : List (List Char × List Rule) :=
  match vs with
  | [] => [(n, new)]
  | (k, rs) :: rest =>
      if k == n then (k, rs ++ new) :: rest
      else (k, rs) :: varRegister rest n new

/-- Embedding of UnitDefinition.can_have_casegen: true when some rule is
non-empty and its first node reports casegen capability. -/
def unitCanHaveCasegen (u : UnitDef) : Bool :=
  u.rules.any (fun rule =>
    match rule with
    | [] => false
    | n :: _ => n.canHaveCasegen)

/-- Embedding of UnitDefinition.add_rule.  The Python method appends the
rule to the rules list, then raises a SyntaxError on an empty variation
name, and otherwise registers the rule under the variation name (the
reserved variation names are not checked here).  On the error path the
Python object keeps the already appended unconditional rule; the Except
embedding reports the error and the claims below only concern the
variations mapping and the success path. -/
def addRule (u : UnitDef) (rule : Rule) (variation : Option (List Char)) :
    Except PyError UnitDef :=
  let u1 : UnitDef := { u with rules := u.rules ++ [rule] }
  match variation with
  | none => .ok u1
  | some vn =>
      if vn == [] then
        .error (.syntaxError ("Defining a unit with an empty name is not allowed"))
      else .ok { u1 with variations := varRegister u1.variations vn [rule] }

/-- Embedding of UnitDefinition.add_rules, mirroring add_rule with a
list of rules extended instead of one rule appended. -/
def addRules (u : UnitDef) (rules : List Rule) (variation : Option (List Char)) :
    Except PyError UnitDef :=
  let u1 : UnitDef := { u with rules := u.rules ++ rules }
  match variation with
  | none => .ok u1
  | some vn =>
      if vn == [] then
        .error (.syntaxError ("Defining a unit with an empty name is not allowed"))
      else .ok { u1 with variations := varRegister u1.variations vn rules }

/-- Recogniser for results that are a raised SyntaxError. -/
def isSynErrB {α : Type} : Except PyError α → Bool
  | .error (.syntaxError _) => true
  | _ => false

/-- Recogniser for results that return normally. -/
def isOkB {α : Type} : Except PyError α → Bool
  | .ok _ => true
  | _ => false

/-- Modelled from the spec: chatette.utils.choose (imported by the units
module but defined outside the embedded files) selects one element of a
list uniformly at random, and the call sites show it returns None on an
empty list.  The draw at the head of the seed selects the index. -/
def choose {α : Type} (l : List α) (seed : List Nat) : Option α × List Nat :=
  match l with
  | [] => (none, seed)
  | _ => (l[seed.headD 0 % l.length]?, seed.tail)

/-- Rule selection shared by the three generation entry points: the
unconditional rules when no variation is named, otherwise the rules
registered under the variation name, with a SyntaxError for an unknown
name. -/
def selectRules (u : UnitDef) (variation : Option (List Char)) :
    Except PyError (List Rule) :=
  match variation with
  | none => .ok u.rules
  | some vn =>
      match varLookup u.variations vn with
      | none => .error (.syntaxError ("Could not find variation for unit"))
      | some rs => .ok rs

/-- Embedding of UnitDefinition.generate_random.  The variation lookup
happens first; a None choice (empty rule list) returns the empty Example
at once; then the chosen rule is generated node by node threading one
fresh correlation map; then case generation is applied whenever casegen
is set (the Python condition tests the can_have_casegen method object,
which is always truthy, so only the casegen flag matters); finally the
argument is substituted when both an argument value and an argument
identifier are present. -/
def generateRandom (u : UnitDef) (variation : Option (List Char))
    (argValue : Option (List Char)) (seed : List Nat) : Except PyError Example :=
  match selectRules u variation with
  | .error e => .error e
  | .ok rs =>
      match choose rs seed with
      | (none, _) => .ok ⟨[], []⟩
      | (some rule, s1) =>
          let run := runRuleNodes rule [] s1
          let text0 := (run.1.map (fun p => p.1.text)).flatten
          let ents := (run.1.map (fun p => p.1.entities)).flatten
          let s2 := run.2.2
          let text1 := if u.casegen then randomly_change_case (s2.headD 0) text0 else text0
          let text2 :=
            match argValue, u.argIdent with
            | some v, some x => applyArg x v text1
            | _, _ => text1
          .ok ⟨text2, ents⟩

/-- Pairwise combination step of UnitDefinition.generate_all
(lines 225-234): every accumulated example is concatenated with every
possibility of the current node, texts and entity lists in order. -/
def combineExamples (acc poss : List Example) : List Example :=
  acc.flatMap (fun ex => poss.map
    (fun p => ⟨ex.text ++ p.text, ex.entities ++ p.entities⟩))

/-- Per rule loop body of UnitDefinition.generate_all (lines 217-235):
fold over the nodes of the rule; an empty accumulator is replaced by the
possibilities of the current node, a non-empty accumulator is combined
with them pairwise. -/
def ruleGenAll (rule : Rule) : List Example :=
  rule.foldl
    (fun acc n =>
      if acc.length == 0 then n.genAll
      else combineExamples acc n.genAll)
    []

/-- Embedding of UnitDefinition.generate_all: select the relevant rules
(SyntaxError for an unknown variation, SyntaxError when the selection is
empty), concatenate the per rule results in rule order, then substitute
the argument when present, then expand by case generation when the
casegen flag is set and some rule can actually be affected, keeping a
single copy when the two case variants coincide. -/
def generateAllUnit (u : UnitDef) (variation : Option (List Char))
    (argValue : Option (List Char)) : Except PyError (List Example) :=
  match selectRules u variation with
  | .error e => .error e
  | .ok rs =>
      if rs.length == 0 then
        .error (.syntaxError ("No rules could be found for unit"))
      else
        let gen := rs.foldl (fun acc r => acc ++ ruleGenAll r) []
        let gen :=
          match argValue, u.argIdent with
          | some v, some x => gen.map (fun ex => ⟨applyArg x v ex.text, ex.entities⟩)
          | _, _ => gen
        let gen :=
          if u.casegen && unitCanHaveCasegen u then
            gen.flatMap (fun ex =>
              let lo : Example := ⟨with_leading_lower ex.text, ex.entities⟩
              let hi : Example := ⟨with_leading_upper ex.text, ex.entities⟩
              if lo == hi then [ex] else [lo, hi])
          else gen
        .ok gen

/-- Per rule counting loop of get_max_nb_generated_examples
(lines 271-281): nodes whose count is None are skipped, and a node count
met while the accumulator is still zero replaces the accumulator instead
of multiplying it. -/
def ruleMaxCount (rule : Rule) : Nat :=
  rule.foldl
    (fun acc n =>
      match n.maxCount with
      | none => acc
      | some c => if acc == 0 then c else acc * c)
    0

/-- Embedding of UnitDefinition.get_max_nb_generated_examples: sum the
per rule counts over the selected rules (with the same variation lookup
error), and double the total whenever the casegen flag is set. -/
def getMaxNbGeneratedExamples (u : UnitDef) (variation : Option (List Char)) :
    Except PyError Nat :=
  match selectRules u variation with
  | .error e => .error e
  | .ok rs =>
      let total := rs.foldl (fun acc r => acc + ruleMaxCount r) 0
      .ok (if u.casegen then total * 2 else total)

/-! ### check_declaration_validity (parser_utils) -/

/-- Randgen and percentgen checks of check_declaration_validity
(lines 292-299). -/
def checkDeclRand (tokens : List String) : Except PyError Unit :=
  if tokens.count RAND_GEN_SYM > 0 then
    .error (.syntaxError ("Unit declarations cannot take a random generation modifier"))
  else if tokens.count PERCENT_GEN_SYM > 0 then
    .error (.syntaxError ("Unit declarations cannot take a percentage for the random generation modifier"))
  else .ok ()

/-- Argument checks of check_declaration_validity (lines 282-290). -/
def checkDeclArg (tokens : List String) : Except PyError Unit :=
  let c := tokens.count ARG_SYM
  if c > 1 then
    .error (.syntaxError ("There can be only one argument modifier per unit declaration"))
  else if c == 1 then
    match tokens[firstIndexOf tokens ARG_SYM + 1]? with
    | none => .error (.syntaxError ("Arguments must be named"))
    | some nm =>
        if is_special_sym nm then .error (.syntaxError ("Arguments must be named"))
        else checkDeclRand tokens
  else checkDeclRand tokens

/-- Variation checks of check_declaration_validity (lines 267-280). -/
def checkDeclVariation (tokens : List String) : Except PyError Unit :=
  let c := tokens.count VARIATION_SYM
  if c > 1 then
    .error (.syntaxError ("There can be only one variation modifier in a unit declaration"))
  else if c == 1 then
    match tokens[firstIndexOf tokens VARIATION_SYM + 1]? with
    | none => .error (.syntaxError ("Variations must be named"))
    | some nm =>
        if is_special_sym nm then .error (.syntaxError ("Variations must be named"))
        else if nm ∈ RESERVED_VARIATION_NAMES then
          .error (.syntaxError ("The reserved variation names cannot be used"))
        else checkDeclArg tokens
  else checkDeclArg tokens

/-- Embedding of parser_utils.check_declaration_validity.  The casegen
checks come first; with no casegen marker the first token is accessed
unconditionally, which on an empty token list raises an IndexError in
Python; with one casegen marker (necessarily at position 0 once the
misplacement check passed) the declaration must have a second token that
is not a special symbol; then the variation, argument, randgen and
percentgen checks run in order. -/
def check_declaration_validity (tokens : List String) : Except PyError Unit :=
  let cc := tokens.count CASE_GEN_SYM
  if cc > 1 then
    .error (.syntaxError ("There can be only one case generation modifier in a unit declaration"))
  else if cc == 1 && firstIndexOf tokens CASE_GEN_SYM != 0 then
    .error (.syntaxError ("Case generation modifiers have to be at the start of a unit declaration"))
  else if cc == 0 then
    match tokens[0]? with
    | none => .error .indexError
    | some t0 =>
        if is_special_sym t0 then .error (.syntaxError ("Unit declarations must be named"))
        else checkDeclVariation tokens
  else
    if tokens.length ≤ 1 then .error (.syntaxError ("Unit declarations must be named"))
    else
      match tokens[1]? with
      | none => .error .indexError
      | some t1 =>
          if is_special_sym t1 then .error (.syntaxError ("Unit declarations must be named"))
          else checkDeclVariation tokens

/-! ### Claim side predicates for the declaration validity conditions -/

/-- The unit is unnamed in the sense of the claim: after an optional
leading casegen marker, the span is empty or starts with a special
marker. -/
def unnamedUnitB (tokens : List String) : Bool :=
  match tokens with
  | [] => false
  | t :: rest =>
      match if t == CASE_GEN_SYM then rest else tokens with
      | [] => true
      | s :: _ => is_special_sym s

/-- The claim condition of a variation marker with no following name or
with a reserved name. -/
def badVariationB (tokens : List String) : Bool :=
  tokens.count VARIATION_SYM == 1 &&
    (match tokens[firstIndexOf tokens VARIATION_SYM + 1]? with
     | none => true
     | some nm => is_special_sym nm || decide (nm ∈ RESERVED_VARIATION_NAMES))

/-- The claim condition of an argument marker with no following name. -/
def badArgumentB (tokens : List String) : Bool :=
  tokens.count ARG_SYM == 1 &&
    (match tokens[firstIndexOf tokens ARG_SYM + 1]? with
     | none => true
     | some nm => is_special_sym nm)

/-- Disjunction of the conditions under which the claim says
check_declaration_validity raises a syntax error: duplicate casegen, a
casegen marker away from position 0, an unnamed unit, duplicate
variation, a bad variation name, duplicate argument, a bad argument
name, or any randgen or percentgen marker. -/
def declBad (tokens : List String) : Bool :=
  decide (1 < tokens.count CASE_GEN_SYM) ||
  decide (CASE_GEN_SYM ∈ tokens.drop 1) ||
  unnamedUnitB tokens ||
  decide (1 < tokens.count VARIATION_SYM) ||
  badVariationB tokens ||
  decide (1 < tokens.count ARG_SYM) ||
  badArgumentB tokens ||
  decide (RAND_GEN_SYM ∈ tokens) ||
  decide (PERCENT_GEN_SYM ∈ tokens)

/-! ### C8: remove_escapement -/

/-- Transformation described by the claim for remove_escapement, written
as a direct recursion on the text: an escape character followed by the
argument marker is kept escaped, an escape character followed by any
other character resolves to that character alone, a trailing unmatched
escape character is dropped, and other characters pass through. -/
def specRemoveEscapement : List Char → List Char
  | [] => []
  | ['\\'] => []
  | '\\' :: '$' :: rest => '\\' :: '$' :: specRemoveEscapement rest
  | '\\' :: c :: rest => c :: specRemoveEscapement rest
  | c :: rest => c :: specRemoveEscapement rest

theorem escLoop_eq_spec (t : List Char) : escLoop false t = specRemoveEscapement t := by
  induction t using specRemoveEscapement.induct
  case case5 a l hnil hdollar hcons ih =>
    have hc : a ≠ '\\' := by
      intro hcc
      cases l with
      | nil => exact hnil hcc rfl
      | cons d r => exact hcons d r hcc rfl
    simp_all [escLoop, specRemoveEscapement, ESCAPE_CHAR, ARG_CHAR, hc]
  all_goals simp_all [escLoop, specRemoveEscapement, ESCAPE_CHAR, ARG_CHAR]

theorem specRemoveEscapement_of_not_mem (t : List Char) (h : ESCAPE_CHAR ∉ t) :
    specRemoveEscapement t = t := by
  induction t using specRemoveEscapement.induct <;>
    simp_all [specRemoveEscapement, ESCAPE_CHAR]

/-- C8: for every string, remove_escapement keeps an escaped argument
marker escaped, resolves any other escaped character to that character
alone, drops a trailing unmatched escape character, and leaves other
characters unchanged; being a total function it never raises. -/
theorem remove_escapement_spec (t : List Char) :
    remove_escapement t = specRemoveEscapement t := by
  unfold remove_escapement
  by_cases h : ESCAPE_CHAR ∈ t
  · simp [h, escLoop_eq_spec]
  · simp [h, specRemoveEscapement_of_not_mem t h]

/-! ### C10: with_leading_upper and with_leading_lower -/

theorem with_leading_upper_ws_append (ws l : List Char)
    (h : ∀ x ∈ ws, x.isWhitespace = true) :
    with_leading_upper (ws ++ l) = ws ++ with_leading_upper l := by
  induction ws with
  | nil => simp
  | cons c ws ih =>
      have hc := h c (by simp)
      simp only [List.cons_append, with_leading_upper, hc, if_true]
      exact congrArg (c :: ·) (ih (fun x hx => h x (by simp [hx])))

theorem with_leading_lower_ws_append (ws l : List Char)
    (h : ∀ x ∈ ws, x.isWhitespace = true) :
    with_leading_lower (ws ++ l) = ws ++ with_leading_lower l := by
  induction ws with
  | nil => simp
  | cons c ws ih =>
      have hc := h c (by simp)
      simp only [List.cons_append, with_leading_lower, hc, if_true]
      exact congrArg (c :: ·) (ih (fun x hx => h x (by simp [hx])))

/-- C10: both case helpers replace exactly the first non-whitespace
character by its case mapped image, keep every character before and
after that position unchanged, and return a string with no
non-whitespace character unchanged.  Every string is either of the form
whitespace prefix plus a non-whitespace character plus a suffix, or all
whitespace, so the two parts cover all inputs. -/
theorem with_leading_case_frame (ws : List Char) (c : Char) (rest t : List Char)
    (hws : ∀ x ∈ ws, x.isWhitespace = true) (hc : c.isWhitespace = false)
    (ht : ∀ x ∈ t, x.isWhitespace = true) :
    with_leading_upper (ws ++ c :: rest) = ws ++ c.toUpper :: rest ∧
    with_leading_lower (ws ++ c :: rest) = ws ++ c.toLower :: rest ∧
    with_leading_upper t = t ∧
    with_leading_lower t = t := by
  refine ⟨?_, ?_, ?_, ?_⟩
  · rw [with_leading_upper_ws_append ws _ hws]
    simp [with_leading_upper, hc]
  · rw [with_leading_lower_ws_append ws _ hws]
    simp [with_leading_lower, hc]
  · have := with_leading_upper_ws_append t [] ht
    simpa [with_leading_upper] using this
  · have := with_leading_lower_ws_append t [] ht
    simpa [with_leading_lower] using this

theorem with_leading_case_frame_witness :
    with_leading_upper ([' '] ++ 'a' :: ['b']) = [' '] ++ 'a'.toUpper :: ['b'] ∧
    with_leading_lower ([' '] ++ 'a' :: ['b']) = [' '] ++ 'a'.toLower :: ['b'] ∧
    with_leading_upper ([' ', ' ']) = ([' ', ' ']) ∧
    with_leading_lower ([' ', ' ']) = ([' ', ' ']) :=
  with_leading_case_frame [' '] 'a' ['b'] [' ', ' ']
    (by decide) (by decide) (by decide)

/-! ### C2: bracket and span extraction, concrete behaviour -/

/-- C2: evaluation of the two interior extractors.  On balanced input
the declaration extractor returns the exact interior.  On an
unterminated span it returns a slice (dropping the final token) instead
of the None the claim and the dead unreachable length check in the
source intend.  The annotation extractor returns None when the closing
parenthesis is the last token and otherwise includes the closing
parenthesis in the returned slice, because the source omits the final
decrement of end_index that the declaration extractor performs. -/
theorem bracket_interior_divergence :
    get_declaration_interior (["x", "[", "a", "b", "]", "y"]) = some (["a", "b"]) ∧
    get_declaration_interior (["[", "a", "[", "b", "]", "c", "]"]) =
      some (["a", "[", "b", "]", "c"]) ∧
    get_declaration_interior (["[", "a"]) = some ([]) ∧
    get_declaration_interior (["a", "b"]) = none ∧
    get_annotation_interior (["(", "a", ")"]) = none ∧
    get_annotation_interior (["(", "a", ")", "x"]) = some (["a", ")"]) := by decide

/-! ### C7: unknown variation names -/

/-- C7: a variation name that is not a key of the variations mapping
makes each of generate_random, generate_all and
get_max_nb_generated_examples raise a SyntaxError; none of them falls
back to the unconditional rules or returns a default. -/
theorem unknown_variation_always_syntax_error (u : UnitDef) (vn : List Char)
    (argv : Option (List Char)) (seed : List Nat)
    (h : varLookup u.variations vn = none) :
    isSynErrB (generateRandom u (some vn) argv seed) = true ∧
    isSynErrB (generateAllUnit u (some vn) argv) = true ∧
    isSynErrB (getMaxNbGeneratedExamples u (some vn)) = true := by
  simp [generateRandom, generateAllUnit, getMaxNbGeneratedExamples, selectRules, h, isSynErrB]

/-- Small concrete unit shared by several witnesses below. -/
def demoUnit : UnitDef := ⟨['u'], [], [], none, false⟩

theorem unknown_variation_witness :
    varLookup demoUnit.variations (['v']) = none ∧
    (isSynErrB (generateRandom demoUnit (some (['v'])) none []) = true ∧
     isSynErrB (generateAllUnit demoUnit (some (['v'])) none) = true ∧
     isSynErrB (getMaxNbGeneratedExamples demoUnit (some (['v']))) = true) :=
  ⟨by decide, unknown_variation_always_syntax_error demoUnit ['v'] none [] (by decide)⟩

/-! ### C9: add_rule and add_rules versus the variation name invariant -/

theorem varLookup_varRegister_self (vs : List (List Char × List Rule))
    (n : List Char) (new : List Rule) :
    varLookup (varRegister vs n new) n = some ((varLookup vs n).getD [] ++ new) := by
  induction vs with
  | nil => simp [varRegister, varLookup]
  | cons kv rest ih =>
      obtain ⟨k, rs⟩ := kv
      by_cases hk : k = n
      · subst hk
        simp [varRegister, varLookup]
      · simp [varRegister, varLookup, hk, ih]

theorem varLookup_varRegister_other (vs : List (List Char × List Rule))
    (n k : List Char) (new : List Rule) (hk : k ≠ n) :
    varLookup (varRegister vs n new) k = varLookup vs k := by
  induction vs with
  | nil => simp [varRegister, varLookup, Ne.symm hk]
  | cons kv rest ih =>
      obtain ⟨a, rs⟩ := kv
      by_cases ha : a = n
      · have hak : ¬ a = k := fun h => hk (h ▸ ha)
        simp [varRegister, varLookup, ha, hak, Ne.symm hk]
      · simp [varRegister, varLookup, ha, ih]

/-- Concrete rule shared by witnesses and counterexamples below. -/
def demoRule : Rule := [⟨[⟨['w'], []⟩], some 1, false, none, 50, ⟨['w'], []⟩⟩]

/-- C9 counterexample: add_rule accepts the reserved variation name
rules and registers the rule under it, where the claim says it raises a
syntax error instead of registering. -/
theorem addRule_reserved_name_accepted :
    addRule demoUnit demoRule (some ("rules".toList)) =
      .ok ⟨['u'], [demoRule], [("rules".toList, [demoRule])], none, false⟩ := by decide

/-- C9 amended: add_rule and add_rules raise a syntax error exactly for
an empty variation name; with a non-empty variation name (reserved names
included) they succeed, keep the unit name, append to the rules list,
and register the added rules under the given name while leaving every
other variation key unchanged. -/
theorem add_rule_variation_registration (u : UnitDef) (rule : Rule)
    (rules : List Rule) (vn : List Char) (hvn : vn ≠ []) :
    isSynErrB (addRule u rule (some ([]))) = true ∧
    isSynErrB (addRules u rules (some ([]))) = true ∧
    (∃ u1, addRule u rule (some vn) = .ok u1 ∧
      u1.name = u.name ∧
      u1.rules = u.rules ++ [rule] ∧
      varLookup u1.variations vn = some ((varLookup u.variations vn).getD [] ++ [rule]) ∧
      ∀ k, k ≠ vn → varLookup u1.variations k = varLookup u.variations k) ∧
    (∃ u2, addRules u rules (some vn) = .ok u2 ∧
      u2.name = u.name ∧
      u2.rules = u.rules ++ rules ∧
      varLookup u2.variations vn = some ((varLookup u.variations vn).getD [] ++ rules) ∧
      ∀ k, k ≠ vn → varLookup u2.variations k = varLookup u.variations k) := by
  refine ⟨by simp [addRule, isSynErrB], by simp [addRules, isSynErrB], ?_, ?_⟩
  · have hrun : addRule u rule (some vn) =
        .ok { u with rules := u.rules ++ [rule], variations := varRegister u.variations vn [rule] } := by
      simp [addRule, hvn]
    exact ⟨_, hrun, rfl, rfl, varLookup_varRegister_self u.variations vn [rule],
      fun k hk => varLookup_varRegister_other u.variations vn k [rule] hk⟩
  · have hrun : addRules u rules (some vn) =
        .ok { u with rules := u.rules ++ rules, variations := varRegister u.variations vn rules } := by
      simp [addRules, hvn]
    exact ⟨_, hrun, rfl, rfl, varLookup_varRegister_self u.variations vn rules,
      fun k hk => varLookup_varRegister_other u.variations vn k rules hk⟩

theorem add_rule_variation_registration_witness :
    isSynErrB (addRule demoUnit demoRule (some ([]))) = true ∧
    isSynErrB (addRules demoUnit [demoRule] (some ([]))) = true ∧
    (∃ u1, addRule demoUnit demoRule (some (['v'])) = .ok u1 ∧
      u1.name = demoUnit.name ∧
      u1.rules = demoUnit.rules ++ [demoRule] ∧
      varLookup u1.variations ['v'] =
        some ((varLookup demoUnit.variations ['v']).getD [] ++ [demoRule]) ∧
      ∀ k, k ≠ ['v'] → varLookup u1.variations k = varLookup demoUnit.variations k) ∧
    (∃ u2, addRules demoUnit [demoRule] (some (['v'])) = .ok u2 ∧
      u2.name = demoUnit.name ∧
      u2.rules = demoUnit.rules ++ [demoRule] ∧
      varLookup u2.variations ['v'] =
        some ((varLookup demoUnit.variations ['v']).getD [] ++ [demoRule]) ∧
      ∀ k, k ≠ ['v'] → varLookup u2.variations k = varLookup demoUnit.variations k) :=
  add_rule_variation_registration demoUnit demoRule [demoRule] ['v'] (by decide)

/-! ### C1 and C3: exhaustive generation versus counting -/

/-- Product of the exhaustive output sizes of the nodes of a rule. -/
def nodeProd (r : Rule) : Nat :=
  (r.map (fun n => n.genAll.length)).prod

/-- Cartesian product of the exhaustive outputs of the nodes of a rule,
as the claim describes it: the fold of the pairwise concatenation
starting from the single empty example. -/
def cartesianAll (rule : Rule) : List Example :=
  rule.foldl (fun acc n => combineExamples acc n.genAll) [⟨[], []⟩]

theorem combineExamples_length (acc poss : List Example) :
    (combineExamples acc poss).length = acc.length * poss.length := by
  induction acc with
  | nil => simp [combineExamples]
  | cons ex acc ih =>
      simp only [combineExamples, List.flatMap_cons] at ih ⊢
      simp [ih, Nat.succ_mul, Nat.add_comm]

theorem combineExamples_ne_nil (acc poss : List Example)
    (h1 : acc ≠ []) (h2 : poss ≠ []) : combineExamples acc poss ≠ [] := by
  have : (combineExamples acc poss).length ≠ 0 := by
    rw [combineExamples_length]
    exact Nat.mul_ne_zero (by simpa [List.length_eq_zero] using h1)
      (by simpa [List.length_eq_zero] using h2)
  exact fun hh => this (by simp [hh])

theorem combineExamples_empty_neutral (poss : List Example) :
    combineExamples [⟨[], []⟩] poss = poss := by
  simp [combineExamples]

theorem genAllFold_eq_cartFold (r : Rule) (acc : List Example)
    (hacc : acc ≠ []) (h : ∀ n ∈ r, n.genAll ≠ []) :
    r.foldl (fun acc n => if acc.length == 0 then n.genAll
      else combineExamples acc n.genAll) acc
      = r.foldl (fun acc n => combineExamples acc n.genAll) acc := by
  induction r generalizing acc with
  | nil => rfl
  | cons n r ih =>
      have hlen : (acc.length == 0) = false := by
        simp [List.length_eq_zero, hacc]
      simp only [List.foldl_cons, hlen, Bool.false_eq_true, if_false]
      exact ih (combineExamples acc n.genAll)
        (combineExamples_ne_nil acc n.genAll hacc (h n (by simp)))
        (fun m hm => h m (by simp [hm]))

theorem cartFold_length (r : Rule) (acc : List Example) :
    (r.foldl (fun acc n => combineExamples acc n.genAll) acc).length
      = acc.length * nodeProd r := by
  induction r generalizing acc with
  | nil => simp [nodeProd]
  | cons n r ih =>
      simp only [List.foldl_cons, ih, combineExamples_length, nodeProd, List.map_cons,
        List.prod_cons]
      ring

theorem ruleGenAll_length (r : Rule)
    (h : ∀ n ∈ r, n.genAll ≠ []) :
    (ruleGenAll r).length = if r = [] then 0 else nodeProd r := by
  cases r with
  | nil => simp [ruleGenAll]
  | cons n r =>
      have hn : n.genAll ≠ [] := h n (by simp)
      have step1 : ruleGenAll (n :: r) =
          r.foldl (fun acc n => if acc.length == 0 then n.genAll
            else combineExamples acc n.genAll) n.genAll := by
        simp [ruleGenAll]
      rw [step1, genAllFold_eq_cartFold r n.genAll hn (fun m hm => h m (by simp [hm])),
        cartFold_length]
      simp [nodeProd]

theorem countFold_of_ne_zero (r : Rule) (acc : Nat) (hacc : acc ≠ 0)
    (h : ∀ n ∈ r, n.maxCount = some n.genAll.length ∧ n.genAll ≠ []) :
    r.foldl (fun acc n => match n.maxCount with
      | none => acc
      | some c => if acc == 0 then c else acc * c) acc = acc * nodeProd r := by
  induction r generalizing acc with
  | nil => simp [nodeProd]
  | cons n r ih =>
      obtain ⟨hc, hne⟩ := h n (by simp)
      have hlen : n.genAll.length ≠ 0 := by simpa [List.length_eq_zero] using hne
      simp only [List.foldl_cons, hc]
      rw [if_neg (by simpa using hacc)]
      rw [ih (acc * n.genAll.length) (Nat.mul_ne_zero hacc hlen)
        (fun m hm => h m (by simp [hm]))]
      simp [nodeProd, Nat.mul_assoc]

theorem ruleMaxCount_eq_length (r : Rule)
    (h : ∀ n ∈ r, n.maxCount = some n.genAll.length ∧ n.genAll ≠ []) :
    ruleMaxCount r = (ruleGenAll r).length := by
  rw [ruleGenAll_length r (fun n hn => (h n hn).2)]
  cases r with
  | nil => simp [ruleMaxCount]
  | cons n r =>
      obtain ⟨hc, hne⟩ := h n (by simp)
      have hlen : n.genAll.length ≠ 0 := by simpa [List.length_eq_zero] using hne
      have step1 : ruleMaxCount (n :: r) =
          r.foldl (fun acc n => match n.maxCount with
            | none => acc
            | some c => if acc == 0 then c else acc * c) n.genAll.length := by
        simp [ruleMaxCount, hc]
      rw [step1, countFold_of_ne_zero r n.genAll.length hlen
        (fun m hm => h m (by simp [hm]))]
      simp [nodeProd]

theorem foldl_append_ruleGenAll (rs : List Rule) (acc : List Example) :
    rs.foldl (fun a r => a ++ ruleGenAll r) acc = acc ++ rs.flatMap ruleGenAll := by
  induction rs generalizing acc with
  | nil => simp
  | cons r rs ih => simp [ih, List.flatMap_cons]

theorem foldl_add_ruleMaxCount (rs : List Rule) (acc : Nat) :
    rs.foldl (fun a r => a + ruleMaxCount r) acc = acc + (rs.map ruleMaxCount).sum := by
  induction rs generalizing acc with
  | nil => simp
  | cons r rs ih => simp [ih, Nat.add_assoc]

theorem flatMap_congr_rules (rs : List Rule) (f g : Rule → List Example)
    (h : ∀ r ∈ rs, f r = g r) : rs.flatMap f = rs.flatMap g := by
  induction rs with
  | nil => rfl
  | cons r rs ih =>
      simp only [List.flatMap_cons, h r (by simp)]
      rw [ih (fun m hm => h m (by simp [hm]))]

theorem ruleGenAll_eq_cartesianAll (r : Rule) (hrne : r ≠ [])
    (h : ∀ n ∈ r, n.genAll ≠ []) : ruleGenAll r = cartesianAll r := by
  cases r with
  | nil => exact absurd rfl hrne
  | cons n r =>
      have step1 : ruleGenAll (n :: r) =
          r.foldl (fun acc n => if acc.length == 0 then n.genAll
            else combineExamples acc n.genAll) n.genAll := by
        simp [ruleGenAll]
      have step2 : cartesianAll (n :: r) =
          r.foldl (fun acc n => combineExamples acc n.genAll) n.genAll := by
        simp [cartesianAll, combineExamples_empty_neutral]
      rw [step1, step2,
        genAllFold_eq_cartFold r n.genAll (h n (by simp)) (fun m hm => h m (by simp [hm]))]

/-- C1 amended: with case generation inactive, and nodes whose reported
counts match their exhaustive output sizes (all non-zero), the counter
equals the size of the generate_all output for the same selection.  The
counterexample below shows the equality fails when casegen is active. -/
theorem get_max_matches_generate_all_without_casegen
    (u : UnitDef) (vn : Option (List Char)) (rs : List Rule)
    (hsel : selectRules u vn = .ok rs) (hne : rs ≠ [])
    (hcg : u.casegen = false)
    (hnodes : ∀ r ∈ rs, ∀ n ∈ r, n.maxCount = some n.genAll.length ∧ n.genAll ≠ []) :
    getMaxNbGeneratedExamples u vn = (generateAllUnit u vn none).map List.length := by
  have hlen0 : (rs.length == 0) = false := by
    simp [List.length_eq_zero, hne]
  have hgen : generateAllUnit u vn none = .ok (rs.flatMap ruleGenAll) := by
    unfold generateAllUnit
    rw [hsel]
    simp [hlen0, hcg, foldl_append_ruleGenAll]
  have hmax : getMaxNbGeneratedExamples u vn = .ok ((rs.map ruleMaxCount).sum) := by
    unfold getMaxNbGeneratedExamples
    rw [hsel]
    simp [hcg, foldl_add_ruleMaxCount]
  rw [hgen, hmax]
  simp only [Except.map]
  congr 1
  rw [List.length_flatMap]
  congr 1
  exact List.map_congr_left (fun r hr => ruleMaxCount_eq_length r (hnodes r hr))

/-- Word like node whose only exhaustive output is the digit text 3. -/
def node3 : RCNode := ⟨[⟨['3'], []⟩], some 1, true, none, 50, ⟨['3'], []⟩⟩

/-- Casegen enabled unit whose single output has no alphabetic leading
character. -/
def cexCasegenUnit : UnitDef := ⟨['u'], [[node3]], [], none, true⟩

/-- C1 counterexample: with case generation active, the counter doubles
unconditionally (it answers 2) while generate_all keeps the single
example whose two case variants coincide (it produces 1 example), so
get_max_nb_generated_examples is not exactly the generate_all output
size. -/
theorem casegen_count_exceeds_generate_all :
    getMaxNbGeneratedExamples cexCasegenUnit none = .ok 2 ∧
    (generateAllUnit cexCasegenUnit none none).map List.length = .ok 1 := by decide

/-- Word like node with single output x. -/
def nodeX : RCNode := ⟨[⟨['x'], []⟩], some 1, true, none, 50, ⟨['x'], []⟩⟩

/-- Word like node with single output y. -/
def nodeY : RCNode := ⟨[⟨['y'], []⟩], some 1, true, none, 50, ⟨['y'], []⟩⟩

/-- Unit with the two rules of the spec example, casegen inactive. -/
def xyUnit : UnitDef := ⟨['u'], [[nodeX], [nodeY]], [], none, false⟩

theorem get_max_matches_generate_all_witness :
    getMaxNbGeneratedExamples xyUnit none =
      (generateAllUnit xyUnit none none).map List.length :=
  get_max_matches_generate_all_without_casegen xyUnit none [[nodeX], [nodeY]]
    rfl (by decide) rfl (by decide)

/-- C3: with the variation resolved to a non-empty rule list, no case
generation and no argument, generate_all returns for each rule in order
the cartesian product of its nodes exhaustive outputs (texts and entity
lists concatenated pairwise in node order), concatenated across rules in
rule order without deduplication; stated for rules with at least one
node whose outputs are all non-empty, which is how every rule content
class of the program behaves (the base class already returns one
example). -/
theorem generate_all_cartesian_product
    (u : UnitDef) (vn : Option (List Char)) (rs : List Rule)
    (hsel : selectRules u vn = .ok rs) (hne : rs ≠ [])
    (hcg : u.casegen = false)
    (hrne : ∀ r ∈ rs, r ≠ [])
    (hnodes : ∀ r ∈ rs, ∀ n ∈ r, n.genAll ≠ []) :
    generateAllUnit u vn none = .ok (rs.flatMap cartesianAll) := by
  have hlen0 : (rs.length == 0) = false := by
    simp [List.length_eq_zero, hne]
  have hgen : generateAllUnit u vn none = .ok (rs.flatMap ruleGenAll) := by
    unfold generateAllUnit
    rw [hsel]
    simp [hlen0, hcg, foldl_append_ruleGenAll]
  rw [hgen]
  congr 1
  exact flatMap_congr_rules rs ruleGenAll cartesianAll
    (fun r hr => ruleGenAll_eq_cartesianAll r (hrne r hr) (hnodes r hr))

theorem generate_all_cartesian_product_witness :
    generateAllUnit xyUnit none none =
      .ok (([[nodeX], [nodeY]] : List Rule).flatMap cartesianAll) :=
  generate_all_cartesian_product xyUnit none [[nodeX], [nodeY]]
    rfl (by decide) rfl (by decide) (by decide)

/-! ### C4: randgen correlation within one generate_random call -/

/-- Per node generation decisions of one rule run, in node order. -/
def runDecisions (ns : Rule) (m : RMap) (s : List Nat) : List Bool :=
  (runRuleNodes ns m s).1.map (fun p => p.2)

theorem runDecisions_cons (n : RCNode) (ns : Rule) (m : RMap) (s : List Nat) :
    runDecisions (n :: ns) m s =
      (nodeGenRandom n m s).2.1 ::
        runDecisions ns (nodeGenRandom n m s).2.2.1 (nodeGenRandom n m s).2.2.2 := by
  simp [runDecisions, runRuleNodes]

theorem nodeGenRandom_map_mono (n : RCNode) (m : RMap) (s : List Nat)
    (g : List Char) (b : Bool) (h : rmapLookup m g = some b) :
    rmapLookup (nodeGenRandom n m s).2.2.1 g = some b := by
  cases hrg : n.randgen with
  | none => simpa [nodeGenRandom, hrg] using h
  | some g2 =>
      cases hl : rmapLookup m g2 with
      | some b2 => simpa [nodeGenRandom, hrg, hl] using h
      | none =>
          have hne : ¬ g2 = g := fun he => by
            rw [he, h] at hl
            exact Option.noConfusion hl
          simpa [nodeGenRandom, hrg, hl, rmapLookup, hne] using h

theorem runRuleNodes_map_mono (ns : Rule) (m : RMap) (s : List Nat)
    (g : List Char) (b : Bool) (h : rmapLookup m g = some b) :
    rmapLookup (runRuleNodes ns m s).2.1 g = some b := by
  induction ns generalizing m s with
  | nil => simpa [runRuleNodes] using h
  | cons n ns ih =>
      simp only [runRuleNodes]
      exact ih _ _ (nodeGenRandom_map_mono n m s g b h)

theorem nodeGenRandom_records (n : RCNode) (m : RMap) (s : List Nat)
    (g : List Char) (hg : n.randgen = some g) :
    rmapLookup (nodeGenRandom n m s).2.2.1 g = some (nodeGenRandom n m s).2.1 := by
  cases hl : rmapLookup m g with
  | some b => simp [nodeGenRandom, hg, hl]
  | none => simp [nodeGenRandom, hg, hl, rmapLookup]

theorem nodeGenRandom_preserves_none (n : RCNode) (m : RMap) (s : List Nat)
    (g : List Char) (hn : n.randgen ≠ some g) (h : rmapLookup m g = none) :
    rmapLookup (nodeGenRandom n m s).2.2.1 g = none := by
  cases hrg : n.randgen with
  | none => simpa [nodeGenRandom, hrg] using h
  | some g2 =>
      have hne : ¬ g2 = g := fun he => hn (by rw [hrg, he])
      cases hl : rmapLookup m g2 with
      | some b2 => simpa [nodeGenRandom, hrg, hl] using h
      | none => simpa [nodeGenRandom, hrg, hl, rmapLookup, hne] using h

theorem runRuleNodes_decision_recorded (ns : Rule) (m : RMap) (s : List Nat)
    (i : Nat) (n : RCNode) (g : List Char)
    (hin : ns[i]? = some n) (hg : n.randgen = some g) :
    rmapLookup (runRuleNodes ns m s).2.1 g = (runDecisions ns m s)[i]? := by
  induction ns generalizing m s i with
  | nil => simp at hin
  | cons n0 ns ih =>
      cases i with
      | zero =>
          have hn0 : n0 = n := by simpa using hin
          subst hn0
          rw [runDecisions_cons]
          simp only [List.getElem?_cons_zero]
          simp only [runRuleNodes]
          exact runRuleNodes_map_mono ns _ _ g _ (nodeGenRandom_records n0 m s g hg)
      | succ i =>
          have hin2 : ns[i]? = some n := by simpa using hin
          rw [runDecisions_cons]
          simp only [List.getElem?_cons_succ]
          simp only [runRuleNodes]
          exact ih _ _ i hin2

theorem runRuleNodes_first_roll (ns : Rule) (m : RMap) (s : List Nat)
    (k : Nat) (nk : RCNode) (g : List Char)
    (hk : ns[k]? = some nk) (hg : nk.randgen = some g)
    (hfirst : ∀ l nl, l < k → ns[l]? = some nl → nl.randgen ≠ some g)
    (hm : rmapLookup m g = none) :
    (runDecisions ns m s)[k]? =
      some (decide ((runRuleNodes (ns.take k) m s).2.2.headD 0 % 100 < nk.percentgen)) := by
  induction ns generalizing m s k with
  | nil => simp at hk
  | cons n0 ns ih =>
      cases k with
      | zero =>
          have hn0 : n0 = nk := by simpa using hk
          subst hn0
          rw [runDecisions_cons]
          simp only [List.getElem?_cons_zero, List.take_zero]
          simp [runRuleNodes, nodeGenRandom, hg, hm]
      | succ k =>
          have hk2 : ns[k]? = some nk := by simpa using hk
          have h0 : n0.randgen ≠ some g :=
            hfirst 0 n0 (Nat.succ_pos k) (by simp)
          have hm2 := nodeGenRandom_preserves_none n0 m s g h0 hm
          rw [runDecisions_cons]
          simp only [List.getElem?_cons_succ, List.take_succ_cons]
          simp only [runRuleNodes]
          exact ih _ _ k hk2
            (fun l nl hl hnl => hfirst (l + 1) nl (Nat.succ_lt_succ hl) (by simpa using hnl))
            hm2

/-- C4: within one generate_random call (which runs the chosen rule
through runRuleNodes with one fresh empty correlation map), every node
decision for a randgen name equals the single value recorded in the call
scoped map, so all nodes sharing a randgen name generate or suppress
together; the first node bearing the name obtains its decision by
rolling the next draw against its own percentgen.  The node level
behaviour is modelled from the spec and the RuleContent.generate_random
docstring, the subclasses being outside the embedded files. -/
theorem randgen_correlation (ns : Rule) (seed : List Nat) :
    (∀ (nm : List Char),
       generateRandom ⟨nm, [ns], [], none, false⟩ none none seed =
         .ok ⟨((runRuleNodes ns [] seed.tail).1.map (fun p => p.1.text)).flatten,
              ((runRuleNodes ns [] seed.tail).1.map (fun p => p.1.entities)).flatten⟩) ∧
    (∀ (i : Nat) (n : RCNode) (g : List Char), ns[i]? = some n → n.randgen = some g →
       (runDecisions ns [] seed)[i]? = rmapLookup (runRuleNodes ns [] seed).2.1 g) ∧
    (∀ (i j : Nat) (ni nj : RCNode) (g : List Char), ns[i]? = some ni → ns[j]? = some nj →
       ni.randgen = some g → nj.randgen = some g →
       (runDecisions ns [] seed)[i]? = (runDecisions ns [] seed)[j]?) ∧
    (∀ (k : Nat) (nk : RCNode) (g : List Char), ns[k]? = some nk → nk.randgen = some g →
       (∀ (l : Nat) (nl : RCNode), l < k → ns[l]? = some nl → nl.randgen ≠ some g) →
       (runDecisions ns [] seed)[k]? =
         some (decide ((runRuleNodes (ns.take k) [] seed).2.2.headD 0 % 100 < nk.percentgen))) := by
  refine ⟨?_, ?_, ?_, ?_⟩
  · intro nm
    simp [generateRandom, selectRules, choose, Nat.mod_one, runDecisions]
  · intro i n g hin hg
    exact (runRuleNodes_decision_recorded ns [] seed i n g hin hg).symm
  · intro i j ni nj g hi hj hgi hgj
    rw [← runRuleNodes_decision_recorded ns [] seed i ni g hi hgi,
      ← runRuleNodes_decision_recorded ns [] seed j nj g hj hgj]
  · intro k nk g hk hg hfirst
    exact runRuleNodes_first_roll ns [] seed k nk g hk hg hfirst rfl

/-- Node bearing randgen name g with percentage 100. -/
def gNodeA : RCNode := ⟨[⟨['a'], []⟩], some 1, false, some ['g'], 100, ⟨['a'], []⟩⟩

/-- Node bearing randgen name g with percentage 0. -/
def gNodeB : RCNode := ⟨[⟨['b'], []⟩], some 1, false, some ['g'], 0, ⟨['b'], []⟩⟩

theorem randgen_correlation_witness :
    (runDecisions [gNodeA, gNodeB] [] [7])[0]? =
      (runDecisions [gNodeA, gNodeB] [] [7])[1]? :=
  (randgen_correlation [gNodeA, gNodeB] [7]).2.2.1 0 1 gNodeA gNodeB ['g']
    rfl rfl rfl rfl

/-! ### C5: check_declaration_validity versus the claimed conditions -/

theorem checkDeclRand_cases (tokens : List String) :
    isSynErrB (checkDeclRand tokens) =
      (decide (RAND_GEN_SYM ∈ tokens) || decide (PERCENT_GEN_SYM ∈ tokens)) ∧
    isOkB (checkDeclRand tokens) =
      !(decide (RAND_GEN_SYM ∈ tokens) || decide (PERCENT_GEN_SYM ∈ tokens)) := by
  unfold checkDeclRand
  by_cases h1 : RAND_GEN_SYM ∈ tokens
  · have hc : tokens.count RAND_GEN_SYM > 0 := List.count_pos_iff.mpr h1
    simp [hc, isSynErrB, isOkB, h1]
  · have hc : ¬ tokens.count RAND_GEN_SYM > 0 := by
      simpa [List.count_pos_iff] using h1
    by_cases h2 : PERCENT_GEN_SYM ∈ tokens
    · have hc2 : tokens.count PERCENT_GEN_SYM > 0 := List.count_pos_iff.mpr h2
      simp [hc, hc2, isSynErrB, isOkB, h1, h2]
    · have hc2 : ¬ tokens.count PERCENT_GEN_SYM > 0 := by
        simpa [List.count_pos_iff] using h2
      simp [hc, hc2, isSynErrB, isOkB, h1, h2]

theorem checkDeclArg_cases (tokens : List String) :
    isSynErrB (checkDeclArg tokens) =
      (decide (1 < tokens.count ARG_SYM) || badArgumentB tokens ||
       decide (RAND_GEN_SYM ∈ tokens) || decide (PERCENT_GEN_SYM ∈ tokens)) ∧
    isOkB (checkDeclArg tokens) =
      !(decide (1 < tokens.count ARG_SYM) || badArgumentB tokens ||
        decide (RAND_GEN_SYM ∈ tokens) || decide (PERCENT_GEN_SYM ∈ tokens)) := by
  unfold checkDeclArg badArgumentB
  by_cases h1 : 1 < tokens.count ARG_SYM
  · have h2 : (tokens.count ARG_SYM == 1) = false := by
      rw [beq_eq_false_iff_ne]
      omega
    simp [h1, h2, isSynErrB, isOkB]
  · by_cases h2 : tokens.count ARG_SYM = 1
    · cases hnm : tokens[firstIndexOf tokens ARG_SYM + 1]? with
      | none => simp [h1, h2, hnm, isSynErrB, isOkB]
      | some nm =>
          by_cases hsp : is_special_sym nm = true
          · simp [h1, h2, hnm, hsp, isSynErrB, isOkB]
          · obtain ⟨e1, e2⟩ := checkDeclRand_cases tokens
            simp [h1, h2, hnm, hsp, e1, e2]
    · have h2b : (tokens.count ARG_SYM == 1) = false := by
        simp [h2]
      obtain ⟨e1, e2⟩ := checkDeclRand_cases tokens
      simp [h1, h2, h2b, e1, e2]

theorem checkDeclVariation_cases (tokens : List String) :
    isSynErrB (checkDeclVariation tokens) =
      (decide (1 < tokens.count VARIATION_SYM) || badVariationB tokens ||
       decide (1 < tokens.count ARG_SYM) || badArgumentB tokens ||
       decide (RAND_GEN_SYM ∈ tokens) || decide (PERCENT_GEN_SYM ∈ tokens)) ∧
    isOkB (checkDeclVariation tokens) =
      !(decide (1 < tokens.count VARIATION_SYM) || badVariationB tokens ||
        decide (1 < tokens.count ARG_SYM) || badArgumentB tokens ||
        decide (RAND_GEN_SYM ∈ tokens) || decide (PERCENT_GEN_SYM ∈ tokens)) := by
  unfold checkDeclVariation badVariationB
  by_cases h1 : 1 < tokens.count VARIATION_SYM
  · have h2 : (tokens.count VARIATION_SYM == 1) = false := by
      rw [beq_eq_false_iff_ne]
      omega
    simp [h1, h2, isSynErrB, isOkB]
  · by_cases h2 : tokens.count VARIATION_SYM = 1
    · cases hnm : tokens[firstIndexOf tokens VARIATION_SYM + 1]? with
      | none => simp [h1, h2, hnm, isSynErrB, isOkB]
      | some nm =>
          by_cases hsp : is_special_sym nm = true
          · simp [h1, h2, hnm, hsp, isSynErrB, isOkB]
          · by_cases hres : nm ∈ RESERVED_VARIATION_NAMES
            · simp [h1, h2, hnm, hsp, hres, isSynErrB, isOkB]
            · obtain ⟨e1, e2⟩ := checkDeclArg_cases tokens
              simp [h1, h2, hnm, hsp, hres, e1, e2]
    · have h2b : (tokens.count VARIATION_SYM == 1) = false := by
        simp [h2]
      obtain ⟨e1, e2⟩ := checkDeclArg_cases tokens
      simp [h1, h2, h2b, e1, e2]

/-- C5 amended: for every non-empty declaration interior, the validity
check raises a SyntaxError exactly when one of the claimed conditions
holds (duplicate casegen, casegen away from position 0, unnamed unit,
duplicate variation, variation with no following name or a reserved
name, duplicate argument, argument with no following name, or any
randgen or percentgen marker), and returns normally otherwise; on the
empty interior the code instead raises an IndexError, which the
counterexample below records. -/
theorem check_declaration_validity_iff (tokens : List String) (h : tokens ≠ []) :
    isSynErrB (check_declaration_validity tokens) = declBad tokens ∧
    isOkB (check_declaration_validity tokens) = ! declBad tokens := by
  obtain ⟨t, ts, rfl⟩ := List.exists_cons_of_ne_nil h
  unfold check_declaration_validity
  by_cases hgt : 1 < (t :: ts).count CASE_GEN_SYM
  · simp [hgt, isSynErrB, isOkB, declBad]
  · by_cases ht : t = CASE_GEN_SYM
    · subst ht
      have hts0 : ts.count CASE_GEN_SYM = 0 := by
        have hc := List.count_cons CASE_GEN_SYM CASE_GEN_SYM ts
        simp only [beq_self_eq_true, if_true] at hc
        omega
      have hcv : (CASE_GEN_SYM :: ts).count CASE_GEN_SYM = 1 := by
        simp [List.count_cons, hts0]
      have hidx0 : firstIndexOf (CASE_GEN_SYM :: ts) CASE_GEN_SYM = 0 := by
        simp [firstIndexOf, List.findIdx_cons]
      have hnotmem : CASE_GEN_SYM ∉ ts := by
        intro hm
        have := List.count_pos_iff.mpr hm
        omega
      cases ts with
      | nil => exact ⟨by decide, by decide⟩
      | cons t1 ts1 =>
          by_cases hsp : is_special_sym t1 = true
          · simp [hcv, hidx0, hsp, isSynErrB, isOkB, declBad, unnamedUnitB, hnotmem]
          · obtain ⟨e1, e2⟩ := checkDeclVariation_cases (CASE_GEN_SYM :: t1 :: ts1)
            simp [hcv, hidx0, hsp, e1, e2, declBad, unnamedUnitB, hnotmem]
    · by_cases hmem : CASE_GEN_SYM ∈ ts
      · have hts1 : ts.count CASE_GEN_SYM = 1 := by
          have h1 := List.count_pos_iff.mpr hmem
          have hc := List.count_cons CASE_GEN_SYM t ts
          rw [if_neg (by simpa using ht)] at hc
          omega
        have hcv : (t :: ts).count CASE_GEN_SYM = 1 := by
          simp [List.count_cons, hts1, ht]
        have hbe : (t == CASE_GEN_SYM) = false := by
          simpa using ht
        have hidx : firstIndexOf (t :: ts) CASE_GEN_SYM = firstIndexOf ts CASE_GEN_SYM + 1 := by
          simp [firstIndexOf, List.findIdx_cons, hbe]
        simp [hcv, hidx, isSynErrB, isOkB, declBad, hmem]
      · have hc0 : (t :: ts).count CASE_GEN_SYM = 0 := by
          have hc := List.count_cons CASE_GEN_SYM t ts
          rw [if_neg (by simpa using ht)] at hc
          have := List.count_eq_zero.mpr hmem
          omega
        by_cases hsp : is_special_sym t = true
        · simp [hc0, hsp, isSynErrB, isOkB, declBad, unnamedUnitB, ht, hmem]
        · obtain ⟨e1, e2⟩ := checkDeclVariation_cases (t :: ts)
          simp [hc0, hsp, e1, e2, declBad, unnamedUnitB, ht, hmem]

/-- C5 counterexample: on the empty declaration interior none of the
conditions enumerated by the claim holds, so the claim predicts a
normal return, but the code accesses tokens[0] unconditionally when no
casegen marker is present and raises an IndexError, which is neither a
normal return nor a syntax error. -/
theorem check_declaration_validity_empty :
    check_declaration_validity ([]) = .error .indexError ∧ declBad ([]) = false := by
  decide

theorem check_declaration_validity_iff_witness :
    isSynErrB (check_declaration_validity (["&", "x", "#", "rules"])) =
      declBad (["&", "x", "#", "rules"]) ∧
    isOkB (check_declaration_validity (["&", "x", "#", "rules"])) =
      ! declBad (["&", "x", "#", "rules"]) :=
  check_declaration_validity_iff (["&", "x", "#", "rules"]) (by decide)

/-! ### C6: argument substitution in generate_random and generate_all -/

/-- Join a list of segments with a separator between consecutive
segments; used to describe a text by the positions of the occurrences of
the argument pattern. -/
def joinSegs : List (List Char) → List Char → List Char
  | [], _ => []
  | [s], _ => s
  | s :: rest, sep => s ++ sep ++ joinSegs rest sep

/-- Last character of a segment, or the given previous character when
the segment is empty: the lookbehind character after scanning the
segment. -/
def lastOpt (s : List Char) (p : Option Char) : Option Char :=
  s.foldl (fun _ c => some c) p

theorem lastOpt_ne (s : List Char) (p : Option Char) (c : Char)
    (hs : c ∉ s) (hp : p ≠ some c) : lastOpt s p ≠ some c := by
  induction s generalizing p with
  | nil => exact hp
  | cons a s ih =>
      have ha : a ≠ c := fun he => hs (by simp [he])
      exact ih (some a) (fun hm => hs (by simp [hm])) (by simp [ha])

theorem getLastD_ne_of_not_mem (x : List Char) (d c : Char)
    (hx : c ∉ x) (hd : d ≠ c) : x.getLastD d ≠ c := by
  induction x generalizing d with
  | nil => exact hd
  | cons a l ih =>
      simp only [List.getLastD_cons]
      exact ih a (fun hm => hx (by simp [hm])) (fun he => hx (by simp [he]))

theorem argSub_append_no_arg (x v : List Char) (s : List Char)
    (p : Option Char) (rest : List Char) (hs : ARG_CHAR ∉ s) :
    argSub x v p (s ++ rest) = s ++ argSub x v (lastOpt s p) rest := by
  induction s generalizing p with
  | nil => rfl
  | cons c s ih =>
      have hc : (c == ARG_CHAR) = false := by
        have : c ≠ ARG_CHAR := fun he => hs (by simp [he])
        simpa using this
      simp only [List.cons_append, argSub, hc, Bool.false_and, Bool.false_eq_true, if_false]
      rw [ih (some c) (fun hm => hs (by simp [hm]))]
      rfl

theorem argSub_match (x v : List Char)
    (p : Option Char) (rest : List Char) (hp : p ≠ some ESCAPE_CHAR) :
    argSub x v p (ARG_CHAR :: (x ++ rest)) =
      v ++ argSub x v (some (x.getLastD ARG_CHAR)) rest := by
  have hpe : (p == some ESCAPE_CHAR) = false := by simpa using hp
  have hpre : x.isPrefixOf (x ++ rest) = true := by
    simp [List.isPrefixOf_iff_prefix]
  simp only [argSub, beq_self_eq_true, hpe, Bool.not_false, Bool.true_and, hpre, if_true]
  rw [List.drop_left]

theorem argSub_escaped (x v : List Char) (hx : ARG_CHAR ∉ x)
    (p : Option Char) (rest : List Char) :
    argSub x v p (ESCAPE_CHAR :: ARG_CHAR :: (x ++ rest)) =
      ESCAPE_CHAR :: ARG_CHAR :: (x ++ argSub x v (lastOpt x (some ARG_CHAR)) rest) := by
  have h1 : (ESCAPE_CHAR == ARG_CHAR) = false := by decide
  have h2 : (some ESCAPE_CHAR == some ESCAPE_CHAR) = true := by decide
  simp only [argSub, h1, Bool.false_and, Bool.false_eq_true, if_false,
    beq_self_eq_true, h2, Bool.not_true, Bool.true_and, Bool.false_and]
  rw [argSub_append_no_arg x v x (some ARG_CHAR) rest hx]

theorem unescapeDollar_cons_ne (c : Char) (l : List Char) (hc : c ≠ ESCAPE_CHAR) :
    unescapeDollar (c :: l) = c :: unescapeDollar l := by
  have hc2 : c ≠ '\\' := by simpa [ESCAPE_CHAR] using hc
  cases l with
  | nil => simp [unescapeDollar]
  | cons d r => simp [unescapeDollar, hc2]

theorem unescapeDollar_append_no_esc (s rest : List Char) (hs : ESCAPE_CHAR ∉ s) :
    unescapeDollar (s ++ rest) = s ++ unescapeDollar rest := by
  induction s with
  | nil => rfl
  | cons c s ih =>
      have hc : c ≠ ESCAPE_CHAR := fun he => hs (by simp [he])
      rw [List.cons_append, unescapeDollar_cons_ne c _ hc,
        ih (fun hm => hs (by simp [hm]))]
      simp

theorem unescapeDollar_no_esc (t : List Char) (ht : ESCAPE_CHAR ∉ t) :
    unescapeDollar t = t := by
  have := unescapeDollar_append_no_esc t [] ht
  simpa [unescapeDollar] using this

theorem not_mem_joinSegs (c : Char) (segs : List (List Char)) (sep : List Char)
    (hs : ∀ s ∈ segs, c ∉ s) (hsep : c ∉ sep) : c ∉ joinSegs segs sep := by
  induction segs with
  | nil => simp [joinSegs]
  | cons s rest ih =>
      cases rest with
      | nil => simpa [joinSegs] using hs s (by simp)
      | cons s2 rest2 =>
          simp only [joinSegs, List.mem_append, List.append_assoc]
          push_neg
          exact ⟨hs s (by simp), hsep,
            ih (fun m hm => hs m (by simp [hm]))⟩

theorem argSub_joinSegs (x v : List Char)
    (hxe : ESCAPE_CHAR ∉ x) (segs : List (List Char)) (p : Option Char)
    (hne : segs ≠ []) (hp : p ≠ some ESCAPE_CHAR)
    (hsegs : ∀ s ∈ segs, ARG_CHAR ∉ s ∧ ESCAPE_CHAR ∉ s) :
    argSub x v p (joinSegs segs (ARG_CHAR :: x)) = joinSegs segs v := by
  induction segs generalizing p with
  | nil => exact absurd rfl hne
  | cons s rest ih =>
      cases rest with
      | nil =>
          have := argSub_append_no_arg x v s p [] (hsegs s (by simp)).1
          simpa [joinSegs, argSub] using this
      | cons s2 rest2 =>
          have hs := hsegs s (by simp)
          have hlast : lastOpt s p ≠ some ESCAPE_CHAR :=
            lastOpt_ne s p ESCAPE_CHAR hs.2 hp
          have hxlast : x.getLastD ARG_CHAR ≠ ESCAPE_CHAR :=
            getLastD_ne_of_not_mem x ARG_CHAR ESCAPE_CHAR hxe (by decide)
          have step1 : joinSegs (s :: s2 :: rest2) (ARG_CHAR :: x) =
              s ++ (ARG_CHAR :: (x ++ joinSegs (s2 :: rest2) (ARG_CHAR :: x))) := by
            simp [joinSegs]
          rw [step1, argSub_append_no_arg x v s p _ hs.1,
            argSub_match x v (lastOpt s p) _ hlast,
            ih (some (x.getLastD ARG_CHAR)) (by simp) (by simpa using hxlast)
              (fun m hm => hsegs m (by simp [hm]))]
          simp [joinSegs]

theorem argSub_joinSegs_escaped (x v : List Char) (hx : ARG_CHAR ∉ x)
    (segs : List (List Char)) (p : Option Char) (hne : segs ≠ [])
    (hsegs : ∀ s ∈ segs, ARG_CHAR ∉ s ∧ ESCAPE_CHAR ∉ s) :
    argSub x v p (joinSegs segs (ESCAPE_CHAR :: ARG_CHAR :: x)) =
      joinSegs segs (ESCAPE_CHAR :: ARG_CHAR :: x) := by
  induction segs generalizing p with
  | nil => exact absurd rfl hne
  | cons s rest ih =>
      cases rest with
      | nil =>
          have := argSub_append_no_arg x v s p [] (hsegs s (by simp)).1
          simpa [joinSegs, argSub] using this
      | cons s2 rest2 =>
          have hs := hsegs s (by simp)
          have step1 : joinSegs (s :: s2 :: rest2) (ESCAPE_CHAR :: ARG_CHAR :: x) =
              s ++ (ESCAPE_CHAR :: ARG_CHAR ::
                (x ++ joinSegs (s2 :: rest2) (ESCAPE_CHAR :: ARG_CHAR :: x))) := by
            simp [joinSegs]
          rw [step1, argSub_append_no_arg x v s p _ hs.1,
            argSub_escaped x v hx (lastOpt s p) _,
            ih (lastOpt x (some ARG_CHAR)) (by simp)
              (fun m hm => hsegs m (by simp [hm]))]

theorem unescapeDollar_joinSegs_escaped (x : List Char) (hxe : ESCAPE_CHAR ∉ x)
    (segs : List (List Char)) (hne : segs ≠ [])
    (hsegs : ∀ s ∈ segs, ESCAPE_CHAR ∉ s) :
    unescapeDollar (joinSegs segs (ESCAPE_CHAR :: ARG_CHAR :: x)) =
      joinSegs segs (ARG_CHAR :: x) := by
  induction segs with
  | nil => exact absurd rfl hne
  | cons s rest ih =>
      cases rest with
      | nil =>
          simpa [joinSegs] using unescapeDollar_no_esc s (hsegs s (by simp))
      | cons s2 rest2 =>
          have step1 : joinSegs (s :: s2 :: rest2) (ESCAPE_CHAR :: ARG_CHAR :: x) =
              s ++ (ESCAPE_CHAR :: ARG_CHAR ::
                (x ++ joinSegs (s2 :: rest2) (ESCAPE_CHAR :: ARG_CHAR :: x))) := by
            simp [joinSegs]
          have step2 : unescapeDollar (ESCAPE_CHAR :: ARG_CHAR ::
              (x ++ joinSegs (s2 :: rest2) (ESCAPE_CHAR :: ARG_CHAR :: x))) =
              ARG_CHAR :: unescapeDollar
                (x ++ joinSegs (s2 :: rest2) (ESCAPE_CHAR :: ARG_CHAR :: x)) := rfl
          rw [step1, unescapeDollar_append_no_esc s _ (hsegs s (by simp)), step2,
            unescapeDollar_append_no_esc x _ hxe,
            ih (by simp) (fun m hm => hsegs m (by simp [hm]))]
          simp [joinSegs]

/-- Node whose single exhaustive and random output is the given text. -/
def textNode (t : List Char) : RCNode := ⟨[⟨t, []⟩], some 1, false, none, 50, ⟨t, []⟩⟩

/-- C6: in both generate_random and generate_all, when an argument value
is supplied and the unit declares an argument identifier, the generated
text undergoes exactly the substitution applyArg (the two identical code
blocks of the source); and applyArg replaces every unescaped occurrence
of the dollar sign followed by the identifier with the value (third
conjunct, the text being an arbitrary interleaving of occurrence free
segments and unescaped occurrences), while escaped occurrences are never
substituted and the deferred escaped dollar is finally unescaped, so an
escaped occurrence ends up as the literal dollar sign plus identifier
(fourth conjunct). -/
theorem argument_substitution (x v t : List Char) (segs : List (List Char))
    (seed : List Nat) (nm : List Char)
    (hx1 : ARG_CHAR ∉ x) (hx2 : ESCAPE_CHAR ∉ x) (hv : ESCAPE_CHAR ∉ v)
    (hsegs : ∀ s ∈ segs, ARG_CHAR ∉ s ∧ ESCAPE_CHAR ∉ s) (hne : segs ≠ []) :
    (generateAllUnit ⟨nm, [[textNode t]], [], some x, false⟩ none (some v) =
       .ok [⟨applyArg x v t, []⟩]) ∧
    (generateRandom ⟨nm, [[textNode t]], [], some x, false⟩ none (some v) seed =
       .ok ⟨applyArg x v t, []⟩) ∧
    applyArg x v (joinSegs segs (ARG_CHAR :: x)) = joinSegs segs v ∧
    applyArg x v (joinSegs segs (ESCAPE_CHAR :: ARG_CHAR :: x)) =
      joinSegs segs (ARG_CHAR :: x) := by
  refine ⟨?_, ?_, ?_, ?_⟩
  · simp [generateAllUnit, selectRules, ruleGenAll, textNode]
  · simp [generateRandom, selectRules, choose, runRuleNodes, nodeGenRandom, textNode,
      Nat.mod_one]
  · unfold applyArg
    rw [argSub_joinSegs x v hx2 segs none hne (by simp) hsegs]
    exact unescapeDollar_no_esc _
      (not_mem_joinSegs ESCAPE_CHAR segs v (fun s hs => (hsegs s hs).2) hv)
  · unfold applyArg
    rw [argSub_joinSegs_escaped x v hx1 segs none hne hsegs]
    exact unescapeDollar_joinSegs_escaped x hx2 segs hne
      (fun s hs => (hsegs s hs).2)

theorem argument_substitution_witness :
    (generateAllUnit ⟨['u'], [[textNode ("hello $x".toList)]], [], some ['x'], false⟩
       none (some ("world".toList)) =
       .ok [⟨applyArg ['x'] ("world".toList) ("hello $x".toList), []⟩]) ∧
    (generateRandom ⟨['u'], [[textNode ("hello $x".toList)]], [], some ['x'], false⟩
       none (some ("world".toList)) [] =
       .ok ⟨applyArg ['x'] ("world".toList) ("hello $x".toList), []⟩) ∧
    applyArg ['x'] ("world".toList)
        (joinSegs [("hello ".toList), []] (ARG_CHAR :: ['x'])) =
      joinSegs [("hello ".toList), []] ("world".toList) ∧
    applyArg ['x'] ("world".toList)
        (joinSegs [("hello ".toList), []] (ESCAPE_CHAR :: ARG_CHAR :: ['x'])) =
      joinSegs [("hello ".toList), []] (ARG_CHAR :: ['x']) :=
  argument_substitution ['x'] ("world".toList) ("hello $x".toList)
    [("hello ".toList), []] [] ['u']
    (by decide) (by decide) (by decide) (by decide) (by decide)
